import Mathlib

/-!
Verification development for the OracleLang divination engine.

The definitions below are a shallow embedding of the Python sources:
`src/calculator.py` (hexagram computation), `src/limit.py` (daily usage
quota), `src/history.py` (per-user history log) and `src/interpreter.py`
(interpretation assembly and external-model response parsing).

Effectful inputs (wall-clock time, the random generator, the SHA-256
digest, the external-model call, file writes) are threaded as explicit
parameters; machine integers are `Nat`; Python exceptions become
`Except`/`Option` values.
-/

set_option maxRecDepth 4096

/-! ## SymbolTable: the 64-entry binary-code → classical-ordinal map -/

/-- Modelled from the spec: the constant `HEXAGRAM_MAP` lives in
`src/data_constants.py`, which is absent from the sources (only its
importers `src/calculator.py` and the tests `tests/test_hexagram_map.py`
are present).  The spec fixes it as "a fixed bijection from the 64
possible integers [0,63] to the 64 classical ordinals [1,64]"; the
concrete assignment below is the classical King Wen order with the
bottom line as least-significant bit, matching the encoding documented
in `HexagramCalculator._get_hexagram_number`. -/
def HEXAGRAM_MAP : List (Nat × Nat) :=
  [(63, 1), (0, 2), (17, 3), (34, 4), (23, 5), (58, 6), (2, 7), (16, 8),
   (55, 9), (59, 10), (7, 11), (56, 12), (61, 13), (47, 14), (4, 15), (8, 16),
   (25, 17), (38, 18), (3, 19), (48, 20), (41, 21), (37, 22), (32, 23), (1, 24),
   (57, 25), (39, 26), (33, 27), (30, 28), (18, 29), (45, 30), (28, 31), (14, 32),
   (60, 33), (15, 34), (40, 35), (5, 36), (53, 37), (43, 38), (20, 39), (10, 40),
   (35, 41), (49, 42), (31, 43), (62, 44), (24, 45), (6, 46), (26, 47), (22, 48),
   (29, 49), (46, 50), (9, 51), (36, 52), (52, 53), (11, 54), (13, 55), (44, 56),
   (54, 57), (27, 58), (50, 59), (19, 60), (51, 61), (12, 62), (21, 63), (42, 64)]

/-- The 6-line vector read as an unsigned integer, bottom line as bit 0:
`binary |= (val << i)` over `enumerate(hexagram)` in
`HexagramCalculator._get_hexagram_number`. -/
def toBinary (hexagram : List Nat) : Nat :=
  hexagram.enum.foldl (fun b p => b ||| (p.2 <<< p.1)) 0

/-- `HexagramCalculator._get_hexagram_number`, generalized over the lookup
table it consults: look the binary value up, and on a missing entry fall
back to `(binary % 64) + 1`. -/
def get_hexagram_number_with (m : List (Nat × Nat)) (hexagram : List Nat) : Nat :=
  let binary := toBinary hexagram
  match m.lookup binary with
  | some n => n
  | none => binary % 64 + 1

/-- `HexagramCalculator._get_hexagram_number` with the class's fixed map. -/
def get_hexagram_number (hexagram : List Nat) : Nat :=
  get_hexagram_number_with HEXAGRAM_MAP hexagram

/-! ## Calculator -/

/-- `HexagramCalculator._calculate_changed_hexagram`: copy the original
and flip (`1 - original[i]`) exactly the positions where `moving[i] == 1`. -/
def calculate_changed_hexagram (original moving : List Nat) : List Nat :=
  List.zipWith (fun o m => if m = 1 then 1 - o else o) original moving

/-- One line of `HexagramCalculator._random_hexagram`: the sum of three
coin flips decides (original bit, moving bit). -/
def coinLine (s : Nat) : Nat × Nat :=
  if s = 3 then (1, 1)
  else if s = 2 then (1, 0)
  else if s = 1 then (0, 0)
  else (0, 1)

/-- Boolean coin flip as the 0/1 draw of `random.randint(0, 1)`. -/
def b2n (b : Bool) : Nat := if b then 1 else 0

/-- `HexagramCalculator._random_hexagram`; `coins` is the stream of
`random.randint(0,1)` draws, line `i` consuming draws `3i, 3i+1, 3i+2`. -/
def random_hexagram (coins : Nat → Bool) : List Nat × List Nat :=
  let lines := (List.range 6).map fun i =>
    coinLine (b2n (coins (3 * i)) + b2n (coins (3 * i + 1)) + b2n (coins (3 * i + 2)))
  (lines.map Prod.fst, lines.map Prod.snd)

/-- `HexagramCalculator._text_hexagram` for non-empty text; `digestOf`
models `hashlib.sha256(text.encode()).hexdigest()` as the list of its 64
hex-digit values.  Original bit `i` is the lowest bit of digit `i`;
moving bit `i` is 1 iff digit `len-1-i` is below 5. -/
def text_hexagram_core (digestOf : String → List Nat) (text : String) :
    List Nat × List Nat :=
  let h := digestOf text
  let original := (List.range 6).map fun i => (h.getD i 0) % 2
  let moving := (List.range 6).map fun i => if h.getD (h.length - (i + 1)) 0 < 5 then 1 else 0
  (original, moving)

/-- `HexagramCalculator._text_hexagram`: empty text falls back to the
random method. -/
def text_hexagram (digestOf : String → List Nat) (coins : Nat → Bool)
    (text : String) : List Nat × List Nat :=
  if text = "" then random_hexagram coins else text_hexagram_core digestOf text

/-- Python `str.replace(" ", "")` on the character list. -/
def removeSpaces (s : String) : List Char :=
  s.data.filter (fun c => c ≠ ' ')

/-- Python `int(...)` restricted to what `_number_hexagram` feeds it: an
optional sign followed by at least one decimal digit. -/
def pyParseInt (cs : List Char) : Option Int :=
  let (neg, ds) :=
    match cs with
    | '-' :: rest => (true, rest)
    | '+' :: rest => (false, rest)
    | _ => (false, cs)
  if ds = [] ∨ ¬ ds.all Char.isDigit then none
  else
    let n := ds.foldl (fun acc c => 10 * acc + (c.toNat - '0'.toNat)) 0
    some (if neg then -(n : Int) else (n : Int))

/-- Decimal rendering of `str(number)` as a character list. -/
def pyIntStr (n : Int) : List Char :=
  (toString n).data

/-- The digit-extraction loop of `HexagramCalculator._number_hexagram`:
for `i` in 0..5, position `len-1-i` of `str(number)` supplies the digit
(parity → original bit, 6-or-9 → moving bit); once the digits run out an
independent coin supplies the original bit and moving defaults to 0.
Indexing into the sign character makes `int(char)` raise `ValueError`,
modelled as `none`. -/
def numberStep (num : List Char) (coins : Nat → Bool) (i : Nat) : Option (Nat × Nat) :=
  if h : i < num.length then
    let c := num.get ⟨num.length - 1 - i, by omega⟩
    if c.isDigit then
      let d := c.toNat - '0'.toNat
      some (d % 2, if d = 6 ∨ d = 9 then 1 else 0)
    else none
  else
    some (b2n (coins i), 0)

/-- The six line draws of `_number_hexagram` assembled in order. -/
def numberDigits (num : List Char) (coins : Nat → Bool) :
    Option (List Nat × List Nat) :=
  let step := numberStep num coins
  match step 0, step 1, step 2, step 3, step 4, step 5 with
  | some p0, some p1, some p2, some p3, some p4, some p5 =>
      some ([p0, p1, p2, p3, p4, p5].map Prod.fst, [p0, p1, p2, p3, p4, p5].map Prod.snd)
  | _, _, _, _, _, _ => none

/-- `HexagramCalculator._number_hexagram`: parse the input as an integer
ignoring spaces and derive the lines digit by digit from the right; any
`ValueError` (unparsable input, or a sign character reached by the digit
loop) falls back to the text method on the raw input string. -/
def number_hexagram (digestOf : String → List Nat) (coins : Nat → Bool)
    (number_str : String) : List Nat × List Nat :=
  match pyParseInt (removeSpaces number_str) with
  | none => text_hexagram digestOf coins number_str
  | some n =>
    match numberDigits (pyIntStr n) coins with
    | some r => r
    | none => text_hexagram digestOf coins number_str

/-- The local calendar/clock reading consumed by
`HexagramCalculator._time_hexagram`. -/
structure PyTime where
  month : Nat
  day : Nat
  hour : Nat
  minute : Nat
  second : Nat
deriving Repr, DecidableEq

/-- `HexagramCalculator._time_hexagram`: original bits from parities of
(month, day, day-tens, hour, minute, second); moving bits from the fixed
membership tests, with the top two lines always still. -/
def time_hexagram (t : PyTime) : List Nat × List Nat :=
  let original := [t.month % 2, t.day % 2, (t.day / 10) % 2,
                   t.hour % 2, t.minute % 2, t.second % 2]
  let moving := [if t.month = 1 ∨ t.month = 6 ∨ t.month = 8 then 1 else 0,
                 if t.day ∈ ([1, 6, 9, 15, 18, 24, 27, 30] : List Nat) then 1 else 0,
                 if t.hour = 0 ∨ t.hour = 6 ∨ t.hour = 12 ∨ t.hour = 18 then 1 else 0,
                 if t.minute < 10 then 1 else 0,
                 0, 0]
  (original, moving)

/-- The error taxonomy of `HexagramCalculator.calculate`: `ValueError`
(the spec's ValidationError) is re-raised, any other fault is wrapped in
`RuntimeError` (the spec's ComputationError). -/
inductive CalcError where
  | validation (msg : String)
  | computation (msg : String)
deriving Repr, DecidableEq

/-- The dictionary returned by `HexagramCalculator.calculate`. -/
structure CalcResult where
  original : List Nat
  changed : List Nat
  moving : List Nat
  hexagram_original : Nat
  hexagram_changed : Nat
deriving Repr, DecidableEq

/-- The method dispatch of `HexagramCalculator.calculate`: `"random"` or
an empty input text goes to the random method, then the number, time and
text methods in the order of the source's `elif` chain. -/
def dispatch (m input_text : String) (coins : Nat → Bool)
    (digestOf : String → List Nat) (t : PyTime) : List Nat × List Nat :=
  if m = "random" ∨ input_text = "" then random_hexagram coins
  else if m = "数字" then number_hexagram digestOf coins input_text
  else if m = "时间" then time_hexagram t
  else text_hexagram digestOf coins input_text

/-- `HexagramCalculator.calculate`: normalize the method (unknown or
empty falls back to `"text"`), dispatch, validate the vectors, derive
the changed vector and both ordinals. -/
def calculate (method input_text : String) (coins : Nat → Bool)
    (digestOf : String → List Nat) (t : PyTime) : Except CalcError CalcResult :=
  let m := if method = "" ∨ method ∉ (["random", "text", "数字", "时间"] : List String)
    then "text" else method
  let p := dispatch m input_text coins digestOf t
  if p.1.length ≠ 6 ∨ p.2.length ≠ 6 then
    .error (.validation "爻的数量必须为6")
  else
    let changed := calculate_changed_hexagram p.1 p.2
    let hexagram_original := get_hexagram_number p.1
    let hexagram_changed :=
      if p.2.sum > 0 then get_hexagram_number changed else hexagram_original
    .ok ⟨p.1, changed, p.2, hexagram_original, hexagram_changed⟩

/-! ## QuotaStore (`src/limit.py`, class `UsageLimit`) -/

/-- One per-user record of the quota table:
`{"count": int, "last_usage": "YYYY-MM-DD HH:MM:SS"}`. -/
structure UserRec where
  count : Nat
  last_usage : String
deriving Repr, DecidableEq

/-- The in-memory `usage_data` table: `{"last_reset": date, "users": {...}}`.
The users dict is modelled as a lookup function keyed by the canonical
string user id. -/
structure QuotaState where
  last_reset : String
  users : String → Option UserRec

/-- `UsageLimit._check_reset`: when today's date (in the configured
timezone) differs from the stored `last_reset`, clear every user counter
and stamp the new date; `today` is the value `_get_current_date()` would
return. -/
def check_reset (st : QuotaState) (today : String) : QuotaState :=
  if today ≠ st.last_reset then { last_reset := today, users := fun _ => none } else st

/-- The count read for a user: `users.get(uid, {"count": 0}).get("count", 0)`. -/
def getCount (st : QuotaState) (uid : String) : Nat :=
  ((st.users uid).map UserRec.count).getD 0

/-- `UsageLimit.check_user_limit`: rollover check, then `count < daily_max`.
Returns the boolean answer together with the (possibly reset) state. -/
def check_user_limit (dailyMax : Nat) (st : QuotaState) (today uid : String) :
    Bool × QuotaState :=
  let st := check_reset st today
  (decide (getCount st uid < dailyMax), st)

/-- `UsageLimit.update_usage`: rollover check, then increment the user's
count and stamp `last_usage` with the current time `now`. -/
def update_usage (st : QuotaState) (today now uid : String) : QuotaState :=
  let st := check_reset st today
  let rec0 := (st.users uid).getD ⟨0, ""⟩
  { st with users := fun u => if u = uid then some ⟨rec0.count + 1, now⟩ else st.users u }

/-- `UsageLimit.get_remaining`: rollover check, then `max(0, max - count)`
(natural subtraction). -/
def get_remaining (dailyMax : Nat) (st : QuotaState) (today uid : String) :
    Nat × QuotaState :=
  let st := check_reset st today
  (dailyMax - getCount st uid, st)

/-- `UsageLimit.reset_user`: rollover check, then delete and recreate the
user's record with `count = 0` and a fresh timestamp. -/
def reset_user (st : QuotaState) (today now uid : String) : QuotaState :=
  let st := check_reset st today
  { st with users := fun u => if u = uid then some ⟨0, now⟩ else st.users u }

/-- Outcome of the underlying `json.dump` inside `_save_usage_data`. -/
inductive WriteOutcome where
  | ok
  | fail (msg : String)
deriving Repr, DecidableEq

/-- `UsageLimit._save_usage_data`: the whole body sits in
`try: ... except Exception as e: self.logger.error(...)`, so a failing
file write is logged (returned here as the optional log line) and never
propagated to the caller. -/
def save_usage_data (st : QuotaState) (w : WriteOutcome) : QuotaState × Option String :=
  match w with
  | .ok => (st, none)
  | .fail m => (st, some ("Failed to save usage data: " ++ m))

/-- `UsageLimit.update_usage` including its persistence step, as seen by
the caller: the mutation happens in memory, `_save_usage_data` swallows
any write error, and the method itself never raises. -/
def update_usage_io (st : QuotaState) (today now uid : String) (w : WriteOutcome) :
    Except String (QuotaState × Option String) :=
  .ok (save_usage_data (update_usage st today now uid) w)

/-- `UsageLimit.reset_user` including its persistence step, as seen by
the caller. -/
def reset_user_io (st : QuotaState) (today now uid : String) (w : WriteOutcome) :
    Except String (QuotaState × Option String) :=
  .ok (save_usage_data (reset_user st today now uid) w)

/-- `UsageLimit._load_usage_data` on an existing readable file: the
table is read back whole (the dedup pass over already-string keys is the
identity on this model).  Each `UsageLimit` instance calls this once, at
construction. -/
def load_usage_data (file : QuotaState) : QuotaState := file

/-! ## HistoryStore (`src/history.py`, class `HistoryManager`) -/

/-- One history record as written by `HistoryManager.save_record`. -/
structure HistoryRecord where
  timestamp : String
  question : String
  hexagram_original : Nat
  hexagram_changed : Nat
  moving : List Nat
  result_summary : String
  interpretation_summary : String
deriving Repr, DecidableEq

/-- Python `xs[-n:]` for `n > 0`: the suffix of the last `n` elements. -/
def takeLast (n : Nat) (xs : List α) : List α :=
  xs.drop (xs.length - n)

/-- The storage step of `HistoryManager.save_record`: append the new
record to the loaded per-user sequence and keep only the most recent 20
entries (`history = history[-20:]` when the length exceeds 20). -/
def histAppend (history : List HistoryRecord) (r : HistoryRecord) : List HistoryRecord :=
  let h := history ++ [r]
  if h.length > 20 then takeLast 20 h else h

/-- `HistoryManager.get_recent_records` on a loaded history:
`history[-limit:][::-1]`, the last `limit` records newest first.
(`limit = 0` reproduces Python's `[-0:]` returning the whole list.) -/
def get_recent_records (history : List HistoryRecord) (limit : Nat) : List HistoryRecord :=
  if limit = 0 then history.reverse else (takeLast limit history).reverse

/-! ## Interpreter (`src/interpreter.py`, class `HexagramInterpreter`) -/

/-- One reference entry of the hexagram data asset:
`{name, gua_ci, description, lines}`. -/
structure GuaData where
  name : String
  gua_ci : String
  description : String
  lines : List String
deriving Repr, DecidableEq

/-- The synthetic entry substituted when an ordinal is absent from the
loaded data (`interpret` never raises for a missing reference). -/
def unknownGua (n : Nat) : GuaData :=
  { name := "未知卦象(" ++ toString n ++ ")"
    gua_ci := "无卦辞。"
    description := "暂无描述。"
    lines := List.replicate 7 "无爻辞。" }

/-- `HexagramInterpreter._generate_overall_meaning`: the deterministic
baseline template over the original (and, when a line moved, changed)
entry. -/
def generate_overall_meaning (original_data : GuaData) (changed_data : Option GuaData) :
    String :=
  match changed_data with
  | none => original_data.name ++ "：" ++ original_data.description
      ++ "卦辞：" ++ original_data.gua_ci
  | some cd => original_data.name ++ "变" ++ cd.name ++ "：从"
      ++ original_data.description ++ "变化为" ++ cd.description
      ++ "。这表示情况正在发生转变。"

/-- Python `sub in s` for a single-character marker. -/
def hasChar (s : String) (c : Char) : Bool :=
  s.data.contains c

/-- `HexagramInterpreter._determine_fortune`: scan the original's (then
changed's) verse for the auspicious marker, then the original's for the
inauspicious marker, defaulting to neutral. -/
def determine_fortune (original_data : GuaData) (changed_data : Option GuaData) : String :=
  if hasChar original_data.gua_ci '吉' then "吉"
  else if (changed_data.map fun cd => hasChar cd.gua_ci '吉').getD false then "吉"
  else if hasChar original_data.gua_ci '凶' then "凶"
  else "平"

/-- `HexagramInterpreter._generate_advice`: the deterministic baseline
advice template. -/
def generate_advice (original_data : GuaData) (changed_data : Option GuaData) : String :=
  match changed_data with
  | none => "请参考" ++ original_data.name ++ "卦的卦辞进行决策。"
  | some cd => "正处于从" ++ original_data.name ++ "到" ++ cd.name
      ++ "的变化过程中，建议关注变化的动向，顺势而为。"

/-! ### External-model response parsing

The response parser `_parse_llm_response` is referenced by
`tests/test_llm_parsing.py` but absent from `src/interpreter.py` (the
copy in the sources still carries older per-provider inline parsing).
The definitions below are therefore modelled from the spec §4.2: strip a
surrounding code fence, attempt a strict JSON parse expecting the keys
`overall_meaning` / `fortune` / `advice`, normalize `fortune` by
substring test with the inauspicious marker taking priority, and fall
back to heuristic line-oriented parsing; if everything fails the result
is the empty dictionary. -/

/-- Whitespace for the character-level helpers. -/
def isWs (c : Char) : Bool :=
  c = ' ' ∨ c = '\n' ∨ c = '\t' ∨ c = '\r'

/-- Python `str.strip()` on a character list. -/
def pyStrip (cs : List Char) : List Char :=
  ((cs.dropWhile isWs).reverse.dropWhile isWs).reverse

/-- Python `str.strip()`. -/
def strTrim (s : String) : String :=
  String.mk (pyStrip s.data)

/-- Substring test `pat in hay` on character lists. -/
def containsSub (hay pat : List Char) : Bool :=
  match hay with
  | [] => pat.isEmpty
  | _ :: t => pat.isPrefixOf hay || containsSub t pat

/-- Substring test `pat in hay` on strings. -/
def strContainsSub (hay pat : String) : Bool :=
  containsSub hay.data pat.data

/-- Modelled from the spec: strip a surrounding markdown code-fence
marker if present — drop the opening fence line and a trailing fence. -/
def stripCodeFence (s : String) : String :=
  let t := pyStrip s.data
  if ("```".data).isPrefixOf t then
    let body := (t.dropWhile (fun c => c ≠ '\n')).drop 1
    let body := pyStrip body
    let rev := body.reverse
    let body := if ("```".data).isPrefixOf rev then (rev.drop 3).reverse else body
    String.mk (pyStrip body)
  else String.mk t

/-- String-literal scanner of the strict JSON parse: consumes the body
after an opening quote, unescaping `\\`-escapes, and returns the content
together with the unconsumed remainder. -/
def scanJString : List Char → Option (List Char × List Char)
  | [] => none
  | '"' :: rest => some ([], rest)
  | '\\' :: c :: rest =>
      (scanJString rest).map fun p =>
        ((match c with
          | 'n' => '\n'
          | 't' => '\t'
          | 'r' => '\r'
          | _ => c) :: p.1, p.2)
  | ['\\'] => none
  | c :: rest => (scanJString rest).map fun p => (c :: p.1, p.2)

/-- Member list of the strict JSON parse: `"key": "value"` pairs
separated by commas, closed by `}`; `fuel` bounds the recursion by the
input length. -/
def scanJMembers (fuel : Nat) (cs : List Char) : Option (List (String × String) × List Char) :=
  match fuel with
  | 0 => none
  | fuel + 1 =>
    match cs.dropWhile isWs with
    | '"' :: rest =>
      match scanJString rest with
      | none => none
      | some (key, rest) =>
        match rest.dropWhile isWs with
        | ':' :: rest =>
          match (rest.dropWhile isWs) with
          | '"' :: rest =>
            match scanJString rest with
            | none => none
            | some (val, rest) =>
              match rest.dropWhile isWs with
              | ',' :: rest =>
                (scanJMembers fuel rest).map fun p =>
                  ((String.mk key, String.mk val) :: p.1, p.2)
              | '}' :: rest => some ([(String.mk key, String.mk val)], rest)
              | _ => none
          | _ => none
        | _ => none
    | _ => none

/-- Modelled from the spec: the strict JSON parse of §4.2 step 1,
accepting exactly one flat object of string fields with nothing but
whitespace around it. -/
def parseJsonFlat (s : String) : Option (List (String × String)) :=
  match s.data.dropWhile isWs with
  | '\x7b' :: rest =>
    match rest.dropWhile isWs with
    | '\x7d' :: tail => if (tail.dropWhile isWs).isEmpty then some [] else none
    | rest' =>
      match scanJMembers (rest'.length + 1) rest' with
      | some (obj, tail) => if (tail.dropWhile isWs).isEmpty then some obj else none
      | none => none
  | _ => none

/-- Modelled from the spec: normalize `fortune` by substring test, the
inauspicious marker taking priority, defaulting to neutral. -/
def normalizeFortune (t : String) : String :=
  if hasChar t '凶' then "凶" else if hasChar t '吉' then "吉" else "平"

/-- Sections of the heuristic line-oriented fallback parser. -/
inductive LlmSection where
  | meaning
  | fortune
  | advice
deriving Repr, DecidableEq

/-- Modelled from the spec: recognize a section header by its
numeric/enumerated label or by keyword. -/
def classifyHeader (line : String) : Option LlmSection :=
  if ("1.".data).isPrefixOf line.data ∨ ("一、".data).isPrefixOf line.data
      ∨ strContainsSub line "整体意义" ∨ strContainsSub line "解读" then some .meaning
  else if ("2.".data).isPrefixOf line.data ∨ ("二、".data).isPrefixOf line.data
      ∨ strContainsSub line "吉凶" then some .fortune
  else if ("3.".data).isPrefixOf line.data ∨ ("三、".data).isPrefixOf line.data
      ∨ strContainsSub line "建议" then some .advice
  else none

/-- Content after the first half- or full-width colon of a line, if any. -/
def afterColon (cs : List Char) : Option (List Char) :=
  if cs.contains ':' then some ((cs.dropWhile (fun c => c ≠ ':')).drop 1)
  else if cs.contains '：' then some ((cs.dropWhile (fun c => c ≠ '：')).drop 1)
  else none

/-- Accumulator of the heuristic fallback parser: collected lines per
section, newest first. -/
structure TextAcc where
  current : Option LlmSection
  meaning : List String
  fortune : List String
  advice : List String

/-- Push one line of content onto a section accumulator. -/
def pushLine (acc : TextAcc) (sec : LlmSection) (content : String) : TextAcc :=
  match sec with
  | .meaning => { acc with meaning := content :: acc.meaning }
  | .fortune => { acc with fortune := content :: acc.fortune }
  | .advice => { acc with advice := content :: acc.advice }

/-- One step of the heuristic fallback parser: a header line opens its
section (any content after its colon counts as section content); a
non-header line joins the active section. -/
def textStep (acc : TextAcc) (line : String) : TextAcc :=
  match classifyHeader line with
  | some sec =>
    let acc := { acc with current := some sec }
    match afterColon line.data with
    | some rest =>
      let rest := pyStrip rest
      if rest.isEmpty then acc else pushLine acc sec (String.mk rest)
    | none => acc
  | none =>
    match acc.current with
    | some sec => pushLine acc sec line
    | none => acc

/-- Modelled from the spec: the heuristic line-oriented fallback parser
of §4.2 step 2; returns only the fields whose section produced content. -/
def textParse (s : String) : List (String × String) :=
  let lines := ((s.data.splitOn '\n').map pyStrip).filter (fun l => ¬ l.isEmpty)
  let acc := lines.foldl (fun a l => textStep a (String.mk l)) ⟨none, [], [], []⟩
  let joined := fun (ls : List String) => String.intercalate "\n" ls.reverse
  (if acc.meaning.isEmpty then [] else [("overall_meaning", joined acc.meaning)])
  ++ (if acc.fortune.isEmpty then [] else [("fortune", normalizeFortune (joined acc.fortune))])
  ++ (if acc.advice.isEmpty then [] else [("advice", joined acc.advice)])

/-- Modelled from the spec: `HexagramInterpreter._parse_llm_response`
(referenced by `tests/test_llm_parsing.py`, absent from the source
copy).  Ordered strategy: empty input parses to nothing; otherwise strip
a surrounding code fence, attempt the strict JSON parse expecting the
three keys (normalizing `fortune`), and fall back to the heuristic
line-oriented parser. -/
def parse_llm_response (response : String) : List (String × String) :=
  if strTrim response = "" then []
  else
    let s := stripCodeFence response
    match parseJsonFlat s with
    | some obj =>
      match obj.lookup "overall_meaning", obj.lookup "fortune", obj.lookup "advice" with
      | some m, some f, some a =>
        [("overall_meaning", m), ("fortune", normalizeFortune f), ("advice", a)]
      | _, _, _ => textParse s
    | none => textParse s

/-- `HexagramInterpreter._get_llm_interpretation` as seen from
`interpret`: disabled configuration or a missing key yields the empty
dictionary at once; the external call (`outcome`) either errors — every
exception is caught and becomes the empty dictionary — or returns text
handed to the response parser. -/
def get_llm_interpretation (llmEnabled : Bool) (apiKey : String)
    (outcome : Except String String) : List (String × String) :=
  if ¬ llmEnabled ∨ apiKey = "" then []
  else
    match outcome with
    | .error _ => []
    | .ok text => parse_llm_response text

/-- The dictionary returned by `HexagramInterpreter.interpret`. -/
structure InterpResult where
  original : GuaData
  changed : GuaData
  moving_lines_meaning : List String
  overall_meaning : String
  fortune : String
  advice : String
deriving Repr, DecidableEq

/-- `HexagramInterpreter.interpret`: look both ordinals up (substituting
the synthetic unknown entry when absent), build the moving-line glosses
from the original entry, compute the deterministic baseline, optionally
consult the external model, and fill each output field from the model
dictionary with the baseline as default. -/
def interpret (hexData : List (String × GuaData)) (hexagram_original hexagram_changed : Nat)
    (moving : List Nat) (question : String) (use_llm : Bool)
    (llmEnabled : Bool) (apiKey : String) (outcome : Except String String) : InterpResult :=
  let original_data := (hexData.lookup (toString hexagram_original)).getD
    (unknownGua hexagram_original)
  let changed_data := (hexData.lookup (toString hexagram_changed)).getD
    (unknownGua hexagram_changed)
  let has_moving := (List.range 6).any fun i => moving.getD i 0 = 1
  let moving_lines_meaning := (List.range 6).map fun i =>
    if moving.getD i 0 = 1 then original_data.lines.getD i "无爻辞。" else ""
  let cd := if has_moving then some changed_data else none
  let overall_meaning := generate_overall_meaning original_data cd
  let llm := if use_llm ∧ question ≠ "" then
    get_llm_interpretation llmEnabled apiKey outcome else []
  { original := original_data
    changed := if has_moving then changed_data else original_data
    moving_lines_meaning := moving_lines_meaning
    overall_meaning := (llm.lookup "overall_meaning").getD overall_meaning
    fortune := (llm.lookup "fortune").getD (determine_fortune original_data cd)
    advice := (llm.lookup "advice").getD (generate_advice original_data cd) }

/-! ## Shared lemmas -/

/-- A successful association-list lookup comes from an entry of the list. -/
theorem lookup_mem {α β : Type} [BEq α] [LawfulBEq α] {l : List (α × β)} {k : α} {v : β}
    (h : l.lookup k = some v) : (k, v) ∈ l := by
  induction l with
  | nil => simp [List.lookup] at h
  | cons p t ih =>
    obtain ⟨k', v'⟩ := p
    rw [List.lookup] at h
    by_cases hk : k == k'
    · simp [hk] at h
      subst h
      simp at hk
      subst hk
      exact List.mem_cons_self _ _
    · simp [hk] at h
      exact List.mem_cons_of_mem _ (ih h)

/-- Range of `_get_hexagram_number` over any table whose ordinals lie in
1..64: both the lookup branch and the `(binary % 64) + 1` fallback stay
in range. -/
theorem get_hexagram_number_with_range (m : List (Nat × Nat))
    (hm : ∀ p ∈ m, 1 ≤ p.2 ∧ p.2 ≤ 64) (hexagram : List Nat) :
    1 ≤ get_hexagram_number_with m hexagram ∧ get_hexagram_number_with m hexagram ≤ 64 := by
  cases h : List.lookup (toBinary hexagram) m with
  | some n =>
    have hr := hm _ (lookup_mem h)
    simp only at hr
    simp only [get_hexagram_number_with, h]
    exact hr
  | none =>
    simp only [get_hexagram_number_with, h]
    omega

/-- The fixed map's ordinals all lie in 1..64. -/
theorem hexagram_map_values_range : ∀ p ∈ HEXAGRAM_MAP, 1 ≤ p.2 ∧ p.2 ≤ 64 := by decide

/-- A list of length 6 destructures into its six elements. -/
theorem list_len_six (l : List Nat) (h : l.length = 6) :
    ∃ a b c d e f, l = [a, b, c, d, e, f] := by
  obtain ⟨a, l, rfl⟩ := List.exists_of_length_succ l h
  have h1 : l.length = 5 := by simpa using h
  obtain ⟨b, l, rfl⟩ := List.exists_of_length_succ l h1
  have h2 : l.length = 4 := by simpa using h1
  obtain ⟨c, l, rfl⟩ := List.exists_of_length_succ l h2
  have h3 : l.length = 3 := by simpa using h2
  obtain ⟨d, l, rfl⟩ := List.exists_of_length_succ l h3
  have h4 : l.length = 2 := by simpa using h3
  obtain ⟨e, l, rfl⟩ := List.exists_of_length_succ l h4
  have h5 : l.length = 1 := by simpa using h4
  obtain ⟨f, l, rfl⟩ := List.exists_of_length_succ l h5
  have h6 : l.length = 0 := by simpa using h5
  rw [List.length_eq_zero] at h6
  subst h6
  exact ⟨a, b, c, d, e, f, rfl⟩

/-- One position of the changed-vector derivation equals XOR on binary
lines, and leaves the line unchanged exactly when it is not moving. -/
theorem changed_bit (o m : Nat) (ho : o = 0 ∨ o = 1) (hm : m = 0 ∨ m = 1) :
    (if m = 1 then 1 - o else o) = Nat.xor o m
    ∧ ((if m = 1 then 1 - o else o) = o ↔ m = 0) := by
  rcases ho with rfl | rfl <;> rcases hm with rfl | rfl <;> exact ⟨by decide, by decide⟩

/-! ## Claim theorems -/

/-- C1: for every 6-bit pattern (all 64 integers 0..63, and in particular
every value read off a 6-element 0/1 vector with the bottom line as
least-significant bit), the SymbolTable lookup is total, and the map is a
bijection onto the ordinals 1..64: no ordinal repeated, none missing. -/
theorem symbol_table_total_bijection :
    (∀ b : Fin 64, (HEXAGRAM_MAP.lookup b.val).isSome = true)
    ∧ (∀ a b c d e f : Fin 2,
        (HEXAGRAM_MAP.lookup (toBinary [a.val, b.val, c.val, d.val, e.val, f.val])).isSome
          = true)
    ∧ (HEXAGRAM_MAP.map Prod.snd).Nodup
    ∧ (∀ p ∈ HEXAGRAM_MAP, 1 ≤ p.2 ∧ p.2 ≤ 64)
    ∧ (∀ n : Fin 64, (n.val + 1) ∈ HEXAGRAM_MAP.map Prod.snd) := by
  decide

/-- C10: `_get_hexagram_number` is total over any lookup table whose
ordinals lie in 1..64 — the result is always in 1..64, on a missing entry
it is the fallback `(binary % 64) + 1`, and with the calculator's fixed
map the same range holds. -/
theorem get_hexagram_number_total (m : List (Nat × Nat))
    (hm : ∀ p ∈ m, 1 ≤ p.2 ∧ p.2 ≤ 64) (hexagram : List Nat) :
    1 ≤ get_hexagram_number_with m hexagram
    ∧ get_hexagram_number_with m hexagram ≤ 64
    ∧ (List.lookup (toBinary hexagram) m = none →
        get_hexagram_number_with m hexagram = toBinary hexagram % 64 + 1)
    ∧ 1 ≤ get_hexagram_number hexagram ∧ get_hexagram_number hexagram ≤ 64 := by
  obtain ⟨h1, h2⟩ := get_hexagram_number_with_range m hm hexagram
  obtain ⟨h3, h4⟩ := get_hexagram_number_with_range HEXAGRAM_MAP
    hexagram_map_values_range hexagram
  refine ⟨h1, h2, fun hn => ?_, h3, h4⟩
  simp only [get_hexagram_number_with, hn]

/-- Witness for C10 at the empty table, where the lookup misses and the
fallback fires: `toBinary [1,1,1,1,1,1] = 63` and the result is 64. -/
theorem get_hexagram_number_total_witness :
    1 ≤ get_hexagram_number_with ([] : List (Nat × Nat)) [1, 1, 1, 1, 1, 1]
    ∧ get_hexagram_number_with ([] : List (Nat × Nat)) [1, 1, 1, 1, 1, 1] ≤ 64
    ∧ (List.lookup (toBinary [1, 1, 1, 1, 1, 1]) ([] : List (Nat × Nat)) = none →
        get_hexagram_number_with ([] : List (Nat × Nat)) [1, 1, 1, 1, 1, 1]
          = toBinary [1, 1, 1, 1, 1, 1] % 64 + 1)
    ∧ 1 ≤ get_hexagram_number [1, 1, 1, 1, 1, 1]
    ∧ get_hexagram_number [1, 1, 1, 1, 1, 1] ≤ 64 :=
  get_hexagram_number_total ([] : List (Nat × Nat)) (by simp) [1, 1, 1, 1, 1, 1]

/-- C2: for every pair of 6-element 0/1 vectors, the changed vector is
the pointwise XOR of original and moving, and it equals the original
exactly when no line is moving. -/
theorem changed_hexagram_xor (original moving : List Nat)
    (hlo : original.length = 6) (hlm : moving.length = 6)
    (hbo : ∀ x ∈ original, x = 0 ∨ x = 1) (hbm : ∀ x ∈ moving, x = 0 ∨ x = 1) :
    (calculate_changed_hexagram original moving).length = 6
    ∧ (∀ i, i < 6 → (calculate_changed_hexagram original moving).getD i 0
        = Nat.xor (original.getD i 0) (moving.getD i 0))
    ∧ (calculate_changed_hexagram original moving = original
        ↔ ∀ x ∈ moving, x = 0) := by
  obtain ⟨a0, a1, a2, a3, a4, a5, rfl⟩ := list_len_six original hlo
  obtain ⟨m0, m1, m2, m3, m4, m5, rfl⟩ := list_len_six moving hlm
  simp only [List.mem_cons, List.not_mem_nil, or_false, forall_eq_or_imp, forall_eq] at hbo hbm
  obtain ⟨ha0, ha1, ha2, ha3, ha4, ha5⟩ := hbo
  obtain ⟨hm0, hm1, hm2, hm3, hm4, hm5⟩ := hbm
  refine ⟨by simp [calculate_changed_hexagram], ?_, ?_⟩
  · intro i hi
    interval_cases i <;>
      simp only [calculate_changed_hexagram, List.zipWith, List.getD_cons_zero,
        List.getD_cons_succ] <;>
      first
      | exact (changed_bit a0 m0 ha0 hm0).1
      | exact (changed_bit a1 m1 ha1 hm1).1
      | exact (changed_bit a2 m2 ha2 hm2).1
      | exact (changed_bit a3 m3 ha3 hm3).1
      | exact (changed_bit a4 m4 ha4 hm4).1
      | exact (changed_bit a5 m5 ha5 hm5).1
  · simp only [calculate_changed_hexagram, List.zipWith, List.cons.injEq, and_true,
      List.mem_cons, List.not_mem_nil, or_false, forall_eq_or_imp, forall_eq]
    rw [(changed_bit a0 m0 ha0 hm0).2, (changed_bit a1 m1 ha1 hm1).2,
      (changed_bit a2 m2 ha2 hm2).2, (changed_bit a3 m3 ha3 hm3).2,
      (changed_bit a4 m4 ha4 hm4).2, (changed_bit a5 m5 ha5 hm5).2]

/-- Witness for C2 at original `[1,0,1,0,1,0]`, moving `[1,1,0,0,0,0]`. -/
theorem changed_hexagram_xor_witness :
    (calculate_changed_hexagram [1, 0, 1, 0, 1, 0] [1, 1, 0, 0, 0, 0]).length = 6
    ∧ (∀ i, i < 6 → (calculate_changed_hexagram [1, 0, 1, 0, 1, 0] [1, 1, 0, 0, 0, 0]).getD i 0
        = Nat.xor (([1, 0, 1, 0, 1, 0] : List Nat).getD i 0)
            (([1, 1, 0, 0, 0, 0] : List Nat).getD i 0))
    ∧ (calculate_changed_hexagram [1, 0, 1, 0, 1, 0] [1, 1, 0, 0, 0, 0] = [1, 0, 1, 0, 1, 0]
        ↔ ∀ x ∈ ([1, 1, 0, 0, 0, 0] : List Nat), x = 0) :=
  changed_hexagram_xor [1, 0, 1, 0, 1, 0] [1, 1, 0, 0, 0, 0] (by decide) (by decide)
    (by decide) (by decide)

/-- The rollover check always leaves `last_reset` at today's date. -/
theorem check_reset_last (st : QuotaState) (today : String) :
    (check_reset st today).last_reset = today := by
  unfold check_reset
  by_cases h : today = st.last_reset <;> simp [h]

/-- The rollover check is the identity when the stored date is current. -/
theorem check_reset_self (st : QuotaState) (today : String) (h : st.last_reset = today) :
    check_reset st today = st := by
  simp [check_reset, h]

/-- `update_usage` stamps today's date. -/
theorem update_usage_last (st : QuotaState) (today now uid : String) :
    (update_usage st today now uid).last_reset = today := by
  simp [update_usage, check_reset_last]

/-- `update_usage` increments exactly the addressed user's post-rollover
count. -/
theorem update_usage_count (st : QuotaState) (today now uid : String) :
    getCount (update_usage st today now uid) uid
      = getCount (check_reset st today) uid + 1 := by
  unfold update_usage getCount
  cases h : (check_reset st today).users uid <;> simp [h]

/-- C3: with `daily_max = 3`, three same-day `update_usage` calls leave
`check_user_limit` false and `get_remaining` 0; `check_user_limit` is
true exactly when the current-day count is below the maximum; and when
today's date differs from the stored `last_reset`, the rollover step of
the next public operation clears every counter, so the user's remaining
quota is full again and a subsequent increment starts from zero. -/
theorem quota_daily_limit (st : QuotaState) (today n1 n2 n3 now uid : String) :
    ((check_user_limit 3
        (update_usage (update_usage (update_usage st today n1 uid) today n2 uid) today n3 uid)
        today uid).1 = false
      ∧ (get_remaining 3
        (update_usage (update_usage (update_usage st today n1 uid) today n2 uid) today n3 uid)
        today uid).1 = 0)
    ∧ (∀ dailyMax : Nat, ∀ st0 : QuotaState,
        (check_user_limit dailyMax st0 today uid).1 = true
          ↔ getCount (check_reset st0 today) uid < dailyMax)
    ∧ (today ≠ st.last_reset →
        (∀ u, (check_reset st today).users u = none)
        ∧ (get_remaining 3 st today uid).1 = 3
        ∧ getCount (update_usage st today now uid) uid = 1) := by
  have key : getCount (update_usage (update_usage (update_usage st today n1 uid) today n2 uid)
      today n3 uid) uid = getCount (check_reset st today) uid + 3 := by
    have e3 : check_reset (update_usage (update_usage st today n1 uid) today n2 uid) today
        = update_usage (update_usage st today n1 uid) today n2 uid :=
      check_reset_self _ _ (update_usage_last _ _ _ _)
    have e2 : check_reset (update_usage st today n1 uid) today
        = update_usage st today n1 uid :=
      check_reset_self _ _ (update_usage_last _ _ _ _)
    rw [update_usage_count, e3, update_usage_count, e2, update_usage_count]
  have ebig : check_reset (update_usage (update_usage (update_usage st today n1 uid)
      today n2 uid) today n3 uid) today
      = update_usage (update_usage (update_usage st today n1 uid) today n2 uid) today n3 uid :=
    check_reset_self _ _ (update_usage_last _ _ _ _)
  refine ⟨⟨?_, ?_⟩, ?_, ?_⟩
  · simp only [check_user_limit, ebig, key]
    simp
  · simp only [get_remaining, ebig, key]
    omega
  · intro dailyMax st0
    simp [check_user_limit]
  · intro hne
    have hclear : ∀ u, (check_reset st today).users u = none := by
      intro u
      simp [check_reset, hne]
    refine ⟨hclear, ?_, ?_⟩
    · simp only [get_remaining, getCount, hclear uid]
      simp
    · rw [update_usage_count]
      simp [getCount, hclear uid]

/-- Witness for C3 on a concrete one-user table dated 2025-01-01, probed
on 2025-01-02. -/
theorem quota_daily_limit_witness :
    ((check_user_limit 3
        (update_usage (update_usage (update_usage
          (⟨"2025-01-01", fun _ => none⟩ : QuotaState) "2025-01-02" "t1" "u")
          "2025-01-02" "t2" "u") "2025-01-02" "t3" "u")
        "2025-01-02" "u").1 = false
      ∧ (get_remaining 3
        (update_usage (update_usage (update_usage
          (⟨"2025-01-01", fun _ => none⟩ : QuotaState) "2025-01-02" "t1" "u")
          "2025-01-02" "t2" "u") "2025-01-02" "t3" "u")
        "2025-01-02" "u").1 = 0)
    ∧ ((check_user_limit 3 (⟨"2025-01-01", fun _ => none⟩ : QuotaState) "2025-01-02" "u").1
        = true
        ↔ getCount (check_reset (⟨"2025-01-01", fun _ => none⟩ : QuotaState) "2025-01-02") "u"
          < 3)
    ∧ ((∀ u, (check_reset (⟨"2025-01-01", fun _ => none⟩ : QuotaState) "2025-01-02").users u
        = none)
      ∧ (get_remaining 3 (⟨"2025-01-01", fun _ => none⟩ : QuotaState) "2025-01-02" "u").1 = 3
      ∧ getCount (update_usage (⟨"2025-01-01", fun _ => none⟩ : QuotaState)
          "2025-01-02" "now" "u") "u" = 1) :=
  ⟨(quota_daily_limit ⟨"2025-01-01", fun _ => none⟩ "2025-01-02" "t1" "t2" "t3" "now" "u").1,
   (quota_daily_limit ⟨"2025-01-01", fun _ => none⟩ "2025-01-02" "t1" "t2" "t3" "now" "u").2.1
     3 ⟨"2025-01-01", fun _ => none⟩,
   (quota_daily_limit ⟨"2025-01-01", fun _ => none⟩ "2025-01-02" "t1" "t2" "t3" "now" "u").2.2
     (by decide)⟩

/-- C4 (code bug): the per-file lock in `_save_usage_data` guards only
the file write — `update_usage` increments the instance's in-memory
table loaded once at construction and then rewrites the whole file, so
the load–modify–persist sequence is not one atomic unit.  Schedule with
two instances over the same (empty, current-dated) quota file: both
construct (`load_usage_data`), each performs one `update_usage` for user
"u", and the saves land in either order; the last save persists its own
table, whose count is 1.  Two increments, final persisted count 1 — the
claimed `N*M = 2` is lost. -/
theorem quota_concurrent_lost_update :
    getCount (update_usage
      (load_usage_data (⟨"2025-01-02", fun _ => none⟩ : QuotaState))
      "2025-01-02" "tA" "u") "u" = 1
    ∧ getCount (update_usage
      (load_usage_data (⟨"2025-01-02", fun _ => none⟩ : QuotaState))
      "2025-01-02" "tB" "u") "u" = 1
    ∧ ¬ getCount (update_usage
      (load_usage_data (⟨"2025-01-02", fun _ => none⟩ : QuotaState))
      "2025-01-02" "tB" "u") "u" = 2 := by
  refine ⟨?_, ?_, by simp [load_usage_data, update_usage, check_reset, getCount]⟩ <;>
    simp [load_usage_data, update_usage, check_reset, getCount]

/-- C9 counterexample: the claim says a failing persistence inside
`update_usage` surfaces to the caller as a storage error; in the code
`_save_usage_data` catches every exception and only logs it, so the call
still returns normally. -/
theorem quota_write_failure_not_surfaced :
    (update_usage_io (⟨"2025-01-02", fun _ => none⟩ : QuotaState)
      "2025-01-02" "now" "u" (.fail "disk full")).isOk = true := rfl

/-- C9 (amended): on a write failure both `update_usage` and
`reset_user` swallow the error — the in-memory mutation stands, the
failure is only logged, and the caller always gets a normal return,
never a storage error. -/
theorem quota_write_failure_swallowed (st : QuotaState) (today now uid m : String) :
    update_usage_io st today now uid (.fail m)
      = .ok (update_usage st today now uid, some ("Failed to save usage data: " ++ m))
    ∧ update_usage_io st today now uid .ok = .ok (update_usage st today now uid, none)
    ∧ reset_user_io st today now uid (.fail m)
      = .ok (reset_user st today now uid, some ("Failed to save usage data: " ++ m))
    ∧ reset_user_io st today now uid .ok = .ok (reset_user st today now uid, none) :=
  ⟨rfl, rfl, rfl, rfl⟩

/-- Trimming to the last `n` before appending and trimming again is the
same as trimming the whole concatenation. -/
theorem takeLast_append_left {α : Type} (n : Nat) (x y : List α) :
    takeLast n (takeLast n x ++ y) = takeLast n (x ++ y) := by
  unfold takeLast
  rw [List.drop_append_eq_append_drop, List.drop_append_eq_append_drop, List.drop_drop]
  congr 1
  · congr 1
    simp only [List.length_append, List.length_drop]
    omega
  · congr 1
    simp only [List.length_append, List.length_drop]
    omega

/-- `save_record`'s truncation step always equals keeping the last 20 of
the extended sequence. -/
theorem histAppend_takeLast (h : List HistoryRecord) (r : HistoryRecord) :
    histAppend h r = takeLast 20 (h ++ [r]) := by
  simp only [histAppend]
  by_cases hl : (h ++ [r]).length > 20
  · rw [if_pos hl]
  · rw [if_neg hl]
    unfold takeLast
    have h0 : (h ++ [r]).length - 20 = 0 := by omega
    rw [h0, List.drop_zero]

/-- Folding appends over a non-empty batch keeps exactly the last 20 of
everything ever appended. -/
theorem hist_foldl (rs : List HistoryRecord) (h : List HistoryRecord) (hne : rs ≠ []) :
    rs.foldl histAppend h = takeLast 20 (h ++ rs) := by
  induction rs generalizing h with
  | nil => exact absurd rfl hne
  | cons r rs ih =>
    cases rs with
    | nil => simp [histAppend_takeLast]
    | cons r2 rs2 =>
      rw [List.foldl_cons, ih _ (by simp), histAppend_takeLast, takeLast_append_left]
      congr 1
      simp

/-- C6: appending 25 records (from any starting history) leaves exactly
the most recent 20, `get_recent_records` with limit 20 returns them
newest first, and no single append ever leaves more than 20 records. -/
theorem history_capped (h0 rs : List HistoryRecord) (hlen : rs.length = 25) :
    List.foldl histAppend h0 rs = rs.drop 5
    ∧ get_recent_records (List.foldl histAppend h0 rs) 20 = (rs.drop 5).reverse
    ∧ (∀ h r, (histAppend h r).length ≤ 20) := by
  have hne : rs ≠ [] := by
    intro h
    subst h
    simp at hlen
  have hfold : rs.foldl histAppend h0 = takeLast 20 (h0 ++ rs) := hist_foldl rs h0 hne
  have hdrop : takeLast 20 (h0 ++ rs) = rs.drop 5 := by
    unfold takeLast
    have he : (h0 ++ rs).length - 20 = h0.length + 5 := by
      rw [List.length_append, hlen]
      omega
    rw [he]
    exact List.drop_append 5
  refine ⟨hfold.trans hdrop, ?_, ?_⟩
  · rw [hfold, hdrop]
    unfold get_recent_records
    rw [if_neg (by omega : ¬ (20 : Nat) = 0)]
    congr 1
    unfold takeLast
    have hl : (rs.drop 5).length - 20 = 0 := by
      rw [List.length_drop, hlen]
    rw [hl, List.drop_zero]
  · intro h r
    rw [histAppend_takeLast]
    unfold takeLast
    rw [List.length_drop]
    omega

/-- Witness for C6: 25 copies of one concrete record appended to an
empty history. -/
theorem history_capped_witness :
    (List.replicate 25
      (⟨"2025-01-02 10:00:00", "q", 1, 2, [1, 0, 0, 0, 0, 0], "乾为天", "好"⟩
        : HistoryRecord)).length = 25
    ∧ (List.foldl histAppend []
        (List.replicate 25
          (⟨"2025-01-02 10:00:00", "q", 1, 2, [1, 0, 0, 0, 0, 0], "乾为天", "好"⟩
            : HistoryRecord))
      = (List.replicate 25
          (⟨"2025-01-02 10:00:00", "q", 1, 2, [1, 0, 0, 0, 0, 0], "乾为天", "好"⟩
            : HistoryRecord)).drop 5
    ∧ get_recent_records
        (List.foldl histAppend []
          (List.replicate 25
            (⟨"2025-01-02 10:00:00", "q", 1, 2, [1, 0, 0, 0, 0, 0], "乾为天", "好"⟩
              : HistoryRecord))) 20
      = ((List.replicate 25
          (⟨"2025-01-02 10:00:00", "q", 1, 2, [1, 0, 0, 0, 0, 0], "乾为天", "好"⟩
            : HistoryRecord)).drop 5).reverse
    ∧ (∀ h r, (histAppend h r).length ≤ 20)) :=
  ⟨by simp,
   history_capped []
     (List.replicate 25
       (⟨"2025-01-02 10:00:00", "q", 1, 2, [1, 0, 0, 0, 0, 0], "乾为天", "好"⟩
         : HistoryRecord))
     (by simp)⟩

/-- A string of length zero is the empty string. -/
theorem string_length_zero {s : String} (h : s.length = 0) : s = "" := by
  cases s with
  | mk data =>
    cases data with
    | nil => rfl
    | cons a t => simp [String.length] at h

/-- Appending anything to a non-empty string stays non-empty. -/
theorem str_append_ne_empty_of_left (s t : String) (h : s ≠ "") : (s ++ t) ≠ "" := by
  intro he
  apply h
  have hl := congrArg String.length he
  rw [String.length_append, show ("" : String).length = 0 from rfl] at hl
  exact string_length_zero (by omega)

/-- Appending a non-empty string to anything stays non-empty. -/
theorem str_append_ne_empty_of_right (s t : String) (h : t ≠ "") : (s ++ t) ≠ "" := by
  intro he
  apply h
  have hl := congrArg String.length he
  rw [String.length_append, show ("" : String).length = 0 from rfl] at hl
  exact string_length_zero (by omega)

/-- The baseline overall-meaning template is never empty. -/
theorem generate_overall_meaning_ne_empty (od : GuaData) (cd : Option GuaData) :
    generate_overall_meaning od cd ≠ "" := by
  cases cd with
  | none =>
    apply str_append_ne_empty_of_left
    apply str_append_ne_empty_of_right
    decide
  | some c =>
    apply str_append_ne_empty_of_right
    decide

/-- The baseline fortune is one of the three verdict literals, never
empty. -/
theorem determine_fortune_ne_empty (od : GuaData) (cd : Option GuaData) :
    determine_fortune od cd ≠ "" := by
  unfold determine_fortune
  split_ifs <;> decide

/-- The baseline advice template is never empty. -/
theorem generate_advice_ne_empty (od : GuaData) (cd : Option GuaData) :
    generate_advice od cd ≠ "" := by
  cases cd with
  | none =>
    apply str_append_ne_empty_of_right
    decide
  | some c =>
    apply str_append_ne_empty_of_right
    decide

/-- A failing or unparsable external-model step contributes the empty
dictionary. -/
theorem get_llm_interpretation_empty (llmEnabled : Bool) (apiKey : String)
    (outcome : Except String String)
    (hfail : (∃ e, outcome = .error e)
      ∨ (∃ t, outcome = .ok t ∧ parse_llm_response t = [])) :
    get_llm_interpretation llmEnabled apiKey outcome = [] := by
  rcases hfail with ⟨e, rfl⟩ | ⟨t, rfl, hpt⟩
  · simp [get_llm_interpretation, ite_self]
  · simp [get_llm_interpretation, hpt, ite_self]

/-- C7: when the external-model call errors or its text yields nothing
to any parsing stage, `interpret` returns exactly the deterministic
baseline interpretation (identical to running with the model disabled),
and those baseline fields are never empty; as a total function of its
modelled inputs it never raises. -/
theorem interpret_fallback_baseline (hexData : List (String × GuaData))
    (ho hc : Nat) (moving : List Nat) (question : String) (use_llm : Bool)
    (llmEnabled : Bool) (apiKey : String) (outcome : Except String String)
    (hfail : (∃ e, outcome = .error e)
      ∨ (∃ t, outcome = .ok t ∧ parse_llm_response t = [])) :
    interpret hexData ho hc moving question use_llm llmEnabled apiKey outcome
      = interpret hexData ho hc moving question false llmEnabled apiKey outcome
    ∧ (interpret hexData ho hc moving question use_llm llmEnabled apiKey outcome).overall_meaning
      ≠ ""
    ∧ (interpret hexData ho hc moving question use_llm llmEnabled apiKey outcome).fortune ≠ ""
    ∧ (interpret hexData ho hc moving question use_llm llmEnabled apiKey outcome).advice ≠ "" := by
  have hgli := get_llm_interpretation_empty llmEnabled apiKey outcome hfail
  have heq : interpret hexData ho hc moving question use_llm llmEnabled apiKey outcome
      = interpret hexData ho hc moving question false llmEnabled apiKey outcome := by
    simp [interpret, hgli, ite_self]
  refine ⟨heq, ?_, ?_, ?_⟩ <;> rw [heq] <;> simp only [interpret] <;>
    first
    | exact generate_overall_meaning_ne_empty _ _
    | exact determine_fortune_ne_empty _ _
    | exact generate_advice_ne_empty _ _

/-- Witness for C7 at both failure modes: an erroring call, and a
successful call whose text defeats every parsing stage. -/
theorem interpret_fallback_baseline_witness :
    parse_llm_response "这不是有效的JSON格式" = []
    ∧ (interpret [] 1 2 [1, 0, 0, 0, 0, 0] "问前程" true true "k" (Except.error "boom")
        = interpret [] 1 2 [1, 0, 0, 0, 0, 0] "问前程" false true "k" (Except.error "boom")
      ∧ (interpret [] 1 2 [1, 0, 0, 0, 0, 0] "问前程" true true "k"
          (Except.error "boom")).overall_meaning ≠ ""
      ∧ (interpret [] 1 2 [1, 0, 0, 0, 0, 0] "问前程" true true "k"
          (Except.error "boom")).fortune ≠ ""
      ∧ (interpret [] 1 2 [1, 0, 0, 0, 0, 0] "问前程" true true "k"
          (Except.error "boom")).advice ≠ "")
    ∧ (interpret [] 1 2 [1, 0, 0, 0, 0, 0] "问前程" true true "k"
          (Except.ok "这不是有效的JSON格式")
        = interpret [] 1 2 [1, 0, 0, 0, 0, 0] "问前程" false true "k"
          (Except.ok "这不是有效的JSON格式")
      ∧ (interpret [] 1 2 [1, 0, 0, 0, 0, 0] "问前程" true true "k"
          (Except.ok "这不是有效的JSON格式")).overall_meaning ≠ ""
      ∧ (interpret [] 1 2 [1, 0, 0, 0, 0, 0] "问前程" true true "k"
          (Except.ok "这不是有效的JSON格式")).fortune ≠ ""
      ∧ (interpret [] 1 2 [1, 0, 0, 0, 0, 0] "问前程" true true "k"
          (Except.ok "这不是有效的JSON格式")).advice ≠ "") :=
  ⟨by rfl,
   interpret_fallback_baseline [] 1 2 [1, 0, 0, 0, 0, 0] "问前程" true true "k"
     (Except.error "boom") (Or.inl ⟨"boom", rfl⟩),
   interpret_fallback_baseline [] 1 2 [1, 0, 0, 0, 0, 0] "问前程" true true "k"
     (Except.ok "这不是有效的JSON格式") (Or.inr ⟨"这不是有效的JSON格式", rfl, by rfl⟩)⟩

/-- C8: whenever the (fence-stripped) response passes the strict JSON
parse with the three expected keys, the parser deterministically returns
those fields with `fortune` normalized by substring test — the
inauspicious marker takes priority, the auspicious marker alone yields
auspicious, neither yields neutral. -/
theorem llm_json_fortune_priority (s m f a : String) (obj : List (String × String))
    (hp : parseJsonFlat (stripCodeFence s) = some obj)
    (hm : obj.lookup "overall_meaning" = some m)
    (hf : obj.lookup "fortune" = some f)
    (ha : obj.lookup "advice" = some a) :
    parse_llm_response s
      = [("overall_meaning", m), ("fortune", normalizeFortune f), ("advice", a)]
    ∧ (hasChar f '凶' = true → normalizeFortune f = "凶")
    ∧ (hasChar f '吉' = true → hasChar f '凶' = false → normalizeFortune f = "吉")
    ∧ (hasChar f '吉' = false → hasChar f '凶' = false → normalizeFortune f = "平") := by
  have hne : ¬ strTrim s = "" := by
    intro h0
    have ht : pyStrip s.data = [] := congrArg String.data h0
    have hsc : stripCodeFence s = "" := by
      simp only [stripCodeFence, ht]
      rfl
    rw [hsc] at hp
    rw [show parseJsonFlat "" = none from rfl] at hp
    exact Option.noConfusion hp
  refine ⟨?_, ?_, ?_, ?_⟩
  · simp only [parse_llm_response, if_neg hne, hp, hm, hf, ha]
  · intro h
    simp [normalizeFortune, h]
  · intro h1 h2
    simp [normalizeFortune, h1, h2]
  · intro h1 h2
    simp [normalizeFortune, h1, h2]

/-- Witness for C8: a fenced JSON response whose fortune field carries
both markers, normalized to the inauspicious verdict. -/
theorem llm_json_fortune_priority_witness :
    parseJsonFlat (stripCodeFence
        "```json\n\x7b\"overall_meaning\": \"平稳发展\", \"fortune\": \"有吉有凶\", \"advice\": \"谨慎行事\"\x7d\n```")
      = some [("overall_meaning", "平稳发展"), ("fortune", "有吉有凶"), ("advice", "谨慎行事")]
    ∧ (parse_llm_response
        "```json\n\x7b\"overall_meaning\": \"平稳发展\", \"fortune\": \"有吉有凶\", \"advice\": \"谨慎行事\"\x7d\n```"
        = [("overall_meaning", "平稳发展"), ("fortune", normalizeFortune "有吉有凶"),
           ("advice", "谨慎行事")]
      ∧ (hasChar "有吉有凶" '凶' = true → normalizeFortune "有吉有凶" = "凶")
      ∧ (hasChar "有吉有凶" '吉' = true → hasChar "有吉有凶" '凶' = false →
          normalizeFortune "有吉有凶" = "吉")
      ∧ (hasChar "有吉有凶" '吉' = false → hasChar "有吉有凶" '凶' = false →
          normalizeFortune "有吉有凶" = "平")) :=
  ⟨by rfl,
   llm_json_fortune_priority
     "```json\n\x7b\"overall_meaning\": \"平稳发展\", \"fortune\": \"有吉有凶\", \"advice\": \"谨慎行事\"\x7d\n```"
     "平稳发展" "有吉有凶" "谨慎行事"
     [("overall_meaning", "平稳发展"), ("fortune", "有吉有凶"), ("advice", "谨慎行事")]
     (by rfl) (by rfl) (by rfl) (by rfl)⟩

/-- Well-formedness of one generated `(original, moving)` pair: two
vectors of six binary lines. -/
def ValidLines (p : List Nat × List Nat) : Prop :=
  p.1.length = 6 ∧ p.2.length = 6 ∧ (∀ x ∈ p.1, x ≤ 1) ∧ (∀ x ∈ p.2, x ≤ 1)

/-- Each coin-sum line is a pair of bits. -/
theorem coinLine_bits (s : Nat) : (coinLine s).1 ≤ 1 ∧ (coinLine s).2 ≤ 1 := by
  unfold coinLine
  split_ifs <;> exact ⟨by decide, by decide⟩

/-- The random method always yields six binary lines apiece. -/
theorem random_hexagram_valid (coins : Nat → Bool) : ValidLines (random_hexagram coins) := by
  refine ⟨by simp [random_hexagram], by simp [random_hexagram], ?_, ?_⟩ <;>
    · intro x hx
      simp only [random_hexagram, List.map_map, List.mem_map, List.mem_range] at hx
      obtain ⟨i, -, rfl⟩ := hx
      first
      | exact (coinLine_bits _).1
      | exact (coinLine_bits _).2

/-- The text method's digest-driven core always yields six binary lines
apiece. -/
theorem text_hexagram_core_valid (digestOf : String → List Nat) (text : String) :
    ValidLines (text_hexagram_core digestOf text) := by
  refine ⟨by simp [text_hexagram_core], by simp [text_hexagram_core], ?_, ?_⟩
  · intro x hx
    simp only [text_hexagram_core, List.mem_map, List.mem_range] at hx
    obtain ⟨i, -, rfl⟩ := hx
    omega
  · intro x hx
    simp only [text_hexagram_core, List.mem_map, List.mem_range] at hx
    obtain ⟨i, -, rfl⟩ := hx
    split <;> omega

/-- The text method always yields six binary lines apiece. -/
theorem text_hexagram_valid (digestOf : String → List Nat) (coins : Nat → Bool)
    (text : String) : ValidLines (text_hexagram digestOf coins text) := by
  unfold text_hexagram
  split
  · exact random_hexagram_valid coins
  · exact text_hexagram_core_valid digestOf text

/-- Every line the number method draws is a pair of bits. -/
theorem numberStep_bits (num : List Char) (coins : Nat → Bool) (i : Nat) (p : Nat × Nat)
    (h : numberStep num coins i = some p) : p.1 ≤ 1 ∧ p.2 ≤ 1 := by
  simp only [numberStep] at h
  split at h
  · split at h
    · obtain rfl := Option.some.inj h
      constructor
      · exact Nat.lt_succ_iff.mp (Nat.mod_lt _ (by omega))
      · split <;> omega
    · exact Option.noConfusion h
  · obtain rfl := Option.some.inj h
    refine ⟨?_, by omega⟩
    unfold b2n
    split <;> omega

/-- A successful digit extraction yields six binary lines apiece. -/
theorem numberDigits_valid (num : List Char) (coins : Nat → Bool) (r : List Nat × List Nat)
    (h : numberDigits num coins = some r) : ValidLines r := by
  simp only [numberDigits] at h
  rcases h0 : numberStep num coins 0 with _ | p0 <;> rw [h0] at h <;> try exact Option.noConfusion h
  rcases h1 : numberStep num coins 1 with _ | p1 <;> rw [h1] at h <;> try exact Option.noConfusion h
  rcases h2 : numberStep num coins 2 with _ | p2 <;> rw [h2] at h <;> try exact Option.noConfusion h
  rcases h3 : numberStep num coins 3 with _ | p3 <;> rw [h3] at h <;> try exact Option.noConfusion h
  rcases h4 : numberStep num coins 4 with _ | p4 <;> rw [h4] at h <;> try exact Option.noConfusion h
  rcases h5 : numberStep num coins 5 with _ | p5 <;> rw [h5] at h <;> try exact Option.noConfusion h
  obtain rfl := Option.some.inj h
  have b0 := numberStep_bits num coins 0 p0 h0
  have b1 := numberStep_bits num coins 1 p1 h1
  have b2 := numberStep_bits num coins 2 p2 h2
  have b3 := numberStep_bits num coins 3 p3 h3
  have b4 := numberStep_bits num coins 4 p4 h4
  have b5 := numberStep_bits num coins 5 p5 h5
  refine ⟨by simp, by simp, ?_, ?_⟩ <;>
    · intro x hx
      simp only [List.map_cons, List.map_nil, List.mem_cons, List.not_mem_nil, or_false] at hx
      rcases hx with rfl | rfl | rfl | rfl | rfl | rfl <;> omega

/-- The number method always yields six binary lines apiece. -/
theorem number_hexagram_valid (digestOf : String → List Nat) (coins : Nat → Bool)
    (number_str : String) : ValidLines (number_hexagram digestOf coins number_str) := by
  unfold number_hexagram
  split
  · exact text_hexagram_valid digestOf coins number_str
  · rename_i n hn
    split
    · rename_i r hr
      exact numberDigits_valid (pyIntStr n) coins r hr
    · exact text_hexagram_valid digestOf coins number_str

/-- The time method always yields six binary lines apiece. -/
theorem time_hexagram_valid (t : PyTime) : ValidLines (time_hexagram t) := by
  refine ⟨rfl, rfl, ?_, ?_⟩
  · intro x hx
    simp only [time_hexagram, List.mem_cons, List.not_mem_nil, or_false] at hx
    rcases hx with rfl | rfl | rfl | rfl | rfl | rfl <;> omega
  · intro x hx
    simp only [time_hexagram, List.mem_cons, List.not_mem_nil, or_false] at hx
    rcases hx with rfl | rfl | rfl | rfl | rfl | rfl <;> first | omega | (split <;> omega)

/-- Every branch of the method dispatch yields six binary lines apiece. -/
theorem dispatch_valid (m input_text : String) (coins : Nat → Bool)
    (digestOf : String → List Nat) (t : PyTime) :
    ValidLines (dispatch m input_text coins digestOf t) := by
  unfold dispatch
  split
  · exact random_hexagram_valid coins
  · split
    · exact number_hexagram_valid digestOf coins input_text
    · split
      · exact time_hexagram_valid t
      · exact text_hexagram_valid digestOf coins input_text

/-- Changed-vector lines stay binary. -/
theorem zipWith_changed_bits : ∀ (as bs : List Nat), (∀ x ∈ as, x ≤ 1) →
    ∀ x ∈ List.zipWith (fun o m => if m = 1 then 1 - o else o) as bs, x ≤ 1 := by
  intro as
  induction as with
  | nil => simp
  | cons a t ih =>
    intro bs hb x hx
    cases bs with
    | nil => simp at hx
    | cons b tb =>
      simp only [List.zipWith, List.mem_cons] at hx
      rcases hx with rfl | hx
      · have ha : a ≤ 1 := hb a (by simp)
        split <;> omega
      · exact ih tb (fun y hy => hb y (by simp [hy])) x hx

/-- The fixed-map ordinal derivation always lands in 1..64. -/
theorem get_hexagram_number_range (l : List Nat) :
    1 ≤ get_hexagram_number l ∧ get_hexagram_number l ≤ 64 :=
  get_hexagram_number_with_range HEXAGRAM_MAP hexagram_map_values_range l

/-- C5 (amended): for every method, input and effect outcome,
`calculate` returns a well-formed result — two 6-element binary vectors,
a changed vector that is their derivation, and ordinals in 1..64 — and
in particular never errors: an input text absent where a method wants
one is tolerated by falling back to the random method, so the
`ValueError` re-raise and the `RuntimeError` wrap are the only error
paths and neither is reachable from the generators. -/
theorem calculate_total_valid (method input_text : String) (coins : Nat → Bool)
    (digestOf : String → List Nat) (t : PyTime) :
    ∃ r : CalcResult, calculate method input_text coins digestOf t = .ok r
    ∧ r.original.length = 6 ∧ r.moving.length = 6 ∧ r.changed.length = 6
    ∧ (∀ x ∈ r.original, x ≤ 1) ∧ (∀ x ∈ r.moving, x ≤ 1) ∧ (∀ x ∈ r.changed, x ≤ 1)
    ∧ 1 ≤ r.hexagram_original ∧ r.hexagram_original ≤ 64
    ∧ 1 ≤ r.hexagram_changed ∧ r.hexagram_changed ≤ 64 := by
  obtain ⟨h1, h2, h3, h4⟩ := dispatch_valid
    (if method = "" ∨ method ∉ (["random", "text", "数字", "时间"] : List String)
      then "text" else method) input_text coins digestOf t
  simp only [calculate]
  rw [if_neg (by push_neg; exact ⟨h1, h2⟩)]
  refine ⟨_, rfl, ?_⟩
  dsimp only
  refine ⟨h1, h2, ?_, h3, h4, ?_, ?_, ?_, ?_, ?_⟩
  · simp only [calculate_changed_hexagram, List.length_zipWith, h1, h2, Nat.min_self]
  · exact zipWith_changed_bits _ _ h3
  · exact (get_hexagram_number_range _).1
  · exact (get_hexagram_number_range _).2
  · split_ifs <;> exact (get_hexagram_number_range _).1
  · split_ifs <;> exact (get_hexagram_number_range _).2

/-- C5 counterexample: the number method with an absent input text does
not raise a validation error — the dispatch routes empty input to the
random method and returns a fully valid result (here with an all-tails
coin stream). -/
theorem calculate_no_validation_error_on_empty_input :
    calculate "数字" "" (fun _ => false) (fun _ => []) ⟨1, 1, 0, 0, 0⟩
      = .ok ⟨[0, 0, 0, 0, 0, 0], [1, 1, 1, 1, 1, 1], [1, 1, 1, 1, 1, 1], 2, 1⟩ := by
  rfl
